import Mathlib

/-!
Verification of the `learning` package of the voice-assistant repository.

The Python modules under `src/learning/` are shallowly embedded:
database tables become Lean lists of structures, SQLAlchemy sessions
become explicit state passing, Python floats become `ℚ`, and
`datetime` values become abstract integer/natural-number parameters.
Presentation-only fields (`description`, `sample_titles`, ...) that no
claim mentions are elided from the embedded records.
-/

namespace VoiceAssistant

/- Restore kernel evaluation of rational arithmetic (Batteries marks
these `@[irreducible]`), so that concrete instances can be settled by
`decide`. -/
attribute [local semireducible] Rat.mul Rat.inv Rat.add Rat.sub

/-! ## Generic list helpers

`sortDescBy` models Python's stable `list.sort(key=..., reverse=True)`:
an element is inserted before the first element whose key is `≤` its
own, so elements with equal keys keep their original relative order.
`firstUniq` models the insertion order of Python `dict` / `Counter`
keys (first occurrence wins).  `mapFirst` modifies the first element
satisfying a predicate, as SQLAlchemy's `.first()` followed by an
attribute assignment does; `removeFirst` deletes it. -/

def insertDescBy {α β : Type} [LinearOrder β] (key : α → β) (x : α) :
    List α → List α
  | [] => [x]
  | y :: ys => if key y ≤ key x then x :: y :: ys else y :: insertDescBy key x ys

def sortDescBy {α β : Type} [LinearOrder β] (key : α → β) : List α → List α
  | [] => []
  | x :: xs => insertDescBy key x (sortDescBy key xs)

def firstUniq {α : Type} [DecidableEq α] : List α → List α
  | [] => []
  | x :: xs => x :: (firstUniq xs).filter (· ≠ x)

def mapFirst {α : Type} (p : α → Bool) (f : α → α) : List α → List α
  | [] => []
  | x :: xs => if p x then f x :: xs else x :: mapFirst p f xs

def removeFirst {α : Type} (p : α → Bool) : List α → List α
  | [] => []
  | x :: xs => if p x then xs else x :: removeFirst p xs

theorem mem_insertDescBy {α β : Type} [LinearOrder β] (key : α → β) (x a : α) :
    ∀ l : List α, a ∈ insertDescBy key x l ↔ a = x ∨ a ∈ l
  | [] => by simp [insertDescBy]
  | y :: ys => by
    by_cases h : key y ≤ key x
    · simp [insertDescBy, h]
    · simp [insertDescBy, h, mem_insertDescBy key x a ys]
      tauto

theorem perm_insertDescBy {α β : Type} [LinearOrder β] (key : α → β) (x : α) :
    ∀ l : List α, List.Perm (insertDescBy key x l) (x :: l)
  | [] => List.Perm.refl _
  | y :: ys => by
    by_cases h : key y ≤ key x
    · simp [insertDescBy, h]
    · simp only [insertDescBy, h, if_false]
      exact ((perm_insertDescBy key x ys).cons y).trans (List.Perm.swap x y ys)

theorem perm_sortDescBy {α β : Type} [LinearOrder β] (key : α → β) :
    ∀ l : List α, List.Perm (sortDescBy key l) l
  | [] => List.Perm.refl _
  | x :: xs =>
    (perm_insertDescBy key x (sortDescBy key xs)).trans
      ((perm_sortDescBy key xs).cons x)

theorem mem_sortDescBy {α β : Type} [LinearOrder β] (key : α → β) (l : List α)
    (a : α) : a ∈ sortDescBy key l ↔ a ∈ l :=
  (perm_sortDescBy key l).mem_iff

theorem pairwise_insertDescBy {α β : Type} [LinearOrder β] (key : α → β) (x : α) :
    ∀ l : List α, l.Pairwise (fun a b => key b ≤ key a) →
      (insertDescBy key x l).Pairwise (fun a b => key b ≤ key a)
  | [], _ => by simp [insertDescBy]
  | y :: ys, h => by
    rcases List.pairwise_cons.mp h with ⟨hy, hys⟩
    by_cases hxy : key y ≤ key x
    · simp only [insertDescBy, hxy, if_true]
      refine List.pairwise_cons.mpr ⟨?_, h⟩
      intro b hb
      rcases List.mem_cons.mp hb with rfl | hb
      · exact hxy
      · exact le_trans (hy b hb) hxy
    · simp only [insertDescBy, hxy, if_false]
      refine List.pairwise_cons.mpr ⟨?_, pairwise_insertDescBy key x ys hys⟩
      intro b hb
      rcases (mem_insertDescBy key x b ys).mp hb with rfl | hb
      · exact le_of_not_le hxy
      · exact hy b hb

theorem pairwise_sortDescBy {α β : Type} [LinearOrder β] (key : α → β) :
    ∀ l : List α, (sortDescBy key l).Pairwise (fun a b => key b ≤ key a)
  | [] => List.Pairwise.nil
  | x :: xs => pairwise_insertDescBy key x _ (pairwise_sortDescBy key xs)

/-! ## Pattern Recognizer (`src/learning/pattern_recognizer.py`)

Tasks, command-history rows and conversation contexts are embedded
with exactly the fields the analyzers read.  `datetime` attributes are
reduced to the hour (for the time-of-day bucket) and the weekday name
(for the day bucket).  Confidences are `ℚ`. -/

/-- A task row as read by `analyze_task_patterns`. -/
structure Task where
  title : String
  priority : String
  createdHour : ℕ
  createdDay : String
deriving DecidableEq

/-- A command-history row as read by `analyze_command_patterns`. -/
structure CommandRow where
  commandType : String
  executedHour : ℕ
deriving DecidableEq

/-- A conversation-context row as read by `analyze_conversation_patterns`
and `get_recent_context`.  `intent` is `""` when absent (Python
falsiness of `None`/`""` coincide for the uses below). -/
structure ConvContext where
  userId : String
  sessionId : Option String
  intent : String
  language : String
  channel : String
  timestamp : ℤ
deriving DecidableEq

/-- An ephemeral pattern dict.  Fields no claim mentions
(`description`, `sample_titles`, `common_keywords`, `common_commands`)
are elided; `value` carries the categorical value (priority, language,
channel, intent or command type). -/
structure Pattern where
  ptype : String
  confidence : ℚ
  frequency : ℕ
  keyword : Option String := none
  timeOfDay : Option String := none
  dayOfWeek : Option String := none
  value : Option String := none
deriving DecidableEq

/-- `_get_time_of_day` (identical in all four modules). -/
def timeOfDay (hour : ℕ) : String :=
  if 5 ≤ hour ∧ hour < 12 then "morning"
  else if 12 ≤ hour ∧ hour < 17 then "afternoon"
  else if 17 ≤ hour ∧ hour < 21 then "evening"
  else "night"

/-- Stop words of `PatternRecognizer._extract_keywords`. -/
def stopWords : List String :=
  ["a", "an", "the", "and", "or", "but", "in", "on", "at", "to", "for",
   "of", "with", "by", "from", "as", "is", "was", "are", "were", "be",
   "been", "being", "have", "has", "had", "do", "does", "did", "will",
   "would", "should", "could", "may", "might", "must", "can"]

/-- A regex `\w` word character (ASCII fragment). -/
def wordChar (c : Char) : Bool := c.isAlphanum || c == '_'

/-- Split a character list into maximal runs of word characters,
modelling `re.findall(r"\b\w+\b", ...)`.  `acc` holds the current run
reversed. -/
def splitWordsAux : List Char → List Char → List String
  | [], acc => if acc.isEmpty then [] else [String.mk acc.reverse]
  | c :: cs, acc =>
    if wordChar c then splitWordsAux cs (c :: acc)
    else if acc.isEmpty then splitWordsAux cs []
    else String.mk acc.reverse :: splitWordsAux cs []

/-- `PatternRecognizer._extract_keywords`: lowercase, tokenize, drop
stop words and tokens of length `≤ 3`. -/
def extractKeywords (text : String) : List String :=
  (splitWordsAux text.toLower.toList []).filter
    (fun w => !stopWords.contains w && w.length > 3)

/-- `collections.Counter(l).most_common()` with an optional bound:
distinct values in first-occurrence order, sorted descending by count
(stably), optionally truncated. -/
def mostCommon {α : Type} [DecidableEq α] (bound : Option ℕ) (l : List α) :
    List (α × ℕ) :=
  let items := (firstUniq l).map (fun v => (v, l.count v))
  let sorted := sortDescBy (fun p => p.2) items
  match bound with
  | none => sorted
  | some k => sorted.take k

/-- `PatternRecognizer._analyze_time_patterns`: time-of-day groups then
day-of-week groups, each emitted when the group has at least
`min_occurrences = 3` members. -/
def analyzeTimePatterns (tasks : List Task) : List Pattern :=
  let total := tasks.length
  let todPatterns :=
    (firstUniq (tasks.map (fun t => timeOfDay t.createdHour))).filterMap
      (fun tod =>
        let n := (tasks.filter (fun t => timeOfDay t.createdHour == tod)).length
        if 3 ≤ n then
          some { ptype := "time_based", timeOfDay := some tod, frequency := n,
                 confidence := min ((n : ℚ) / (total : ℚ)) 1 }
        else none)
  let dayPatterns :=
    (firstUniq (tasks.map Task.createdDay)).filterMap
      (fun d =>
        let n := (tasks.filter (fun t => t.createdDay == d)).length
        if 3 ≤ n then
          some { ptype := "day_based", dayOfWeek := some d, frequency := n,
                 confidence := min ((n : ℚ) / ((total : ℚ) / 7)) 1 }
        else none)
  todPatterns ++ dayPatterns

/-- `PatternRecognizer._analyze_title_patterns`: top-10 recurring
keywords with count `≥ 3`. -/
def analyzeTitlePatterns (tasks : List Task) : List Pattern :=
  let allKeywords := tasks.flatMap (fun t => extractKeywords t.title)
  (mostCommon (some 10) allKeywords).filterMap
    (fun kc =>
      if 3 ≤ kc.2 then
        some { ptype := "recurring_task", keyword := some kc.1, frequency := kc.2,
               confidence := min ((kc.2 : ℚ) / (tasks.length : ℚ)) 1 }
      else none)

/-- `PatternRecognizer._analyze_priority_patterns`: priority share per
priority value occurring at least `min_occurrences` times.  Note the
confidence is not clamped here (`count ≤ len(tasks)` anyway). -/
def analyzePriorityPatterns (tasks : List Task) : List Pattern :=
  (firstUniq (tasks.map Task.priority)).filterMap
    (fun pr =>
      let n := (tasks.map Task.priority).count pr
      if 3 ≤ n then
        some { ptype := "priority_preference", value := some pr, frequency := n,
               confidence := (n : ℚ) / (tasks.length : ℚ) }
      else none)

/-- `PatternRecognizer.analyze_task_patterns` (the window filter on
`created_at` is the caller's query; the analyzer receives the
already-filtered task list). -/
def analyzeTaskPatterns (tasks : List Task) : List Pattern :=
  analyzeTimePatterns tasks ++ analyzeTitlePatterns tasks ++
    analyzePriorityPatterns tasks

/-- `PatternRecognizer.analyze_command_patterns`. -/
def analyzeCommandPatterns (commands : List CommandRow) : List Pattern :=
  let usage :=
    (mostCommon none (commands.map CommandRow.commandType)).filterMap
      (fun tc =>
        if 3 ≤ tc.2 then
          some { ptype := "command_usage", value := some tc.1, frequency := tc.2,
                 confidence :=
                   if commands = [] then 0
                   else (tc.2 : ℚ) / (commands.length : ℚ) }
        else none)
  let timeCmds :=
    (firstUniq (commands.map (fun c => timeOfDay c.executedHour))).filterMap
      (fun tod =>
        let n := (commands.filter (fun c => timeOfDay c.executedHour == tod)).length
        if 3 ≤ n then
          some { ptype := "time_command", timeOfDay := some tod, frequency := n,
                 confidence :=
                   if commands = [] then 0
                   else (n : ℚ) / (commands.length : ℚ) }
        else none)
  usage ++ timeCmds

/-- `PatternRecognizer.analyze_conversation_patterns`.  Language
preferences are emitted for every language seen (no occurrence gate in
the source); channel and intent patterns require `≥ min_occurrences`. -/
def analyzeConversationPatterns (contexts : List ConvContext) : List Pattern :=
  if contexts = [] then []
  else
    let total := contexts.length
    let langs :=
      (firstUniq (contexts.map ConvContext.language)).map
        (fun lg =>
          let n := (contexts.map ConvContext.language).count lg
          { ptype := "language_preference", value := some lg, frequency := n,
            confidence := (n : ℚ) / (total : ℚ) : Pattern })
    let channels :=
      (firstUniq (contexts.map ConvContext.channel)).filterMap
        (fun ch =>
          let n := (contexts.map ConvContext.channel).count ch
          if 3 ≤ n then
            some { ptype := "channel_preference", value := some ch, frequency := n,
                   confidence := (n : ℚ) / (total : ℚ) }
          else none)
    let intents :=
      (mostCommon (some 5)
          ((contexts.map ConvContext.intent).filter (fun i => i ≠ ""))).filterMap
        (fun ic =>
          if 3 ≤ ic.2 then
            some { ptype := "intent_pattern", value := some ic.1, frequency := ic.2,
                   confidence := (ic.2 : ℚ) / (total : ℚ) }
          else none)
    langs ++ channels ++ intents

/-- `PatternRecognizer.detect_new_patterns`: concatenate all analyzer
outputs, keep confidence `≥ confidence_threshold = 0.6`, sort
descending by confidence. -/
def detectNewPatterns (tasks : List Task) (commands : List CommandRow)
    (contexts : List ConvContext) : List Pattern :=
  sortDescBy Pattern.confidence
    ((analyzeTaskPatterns tasks ++ analyzeCommandPatterns commands ++
        analyzeConversationPatterns contexts).filter
      (fun p => (6 : ℚ) / 10 ≤ p.confidence))

/-! ### Shape lemmas for the analyzers -/

theorem natCast_div_le_one {n m : ℕ} (h : n ≤ m) (hm : 0 < m) :
    (n : ℚ) / (m : ℚ) ≤ 1 := by
  rw [div_le_one (by exact_mod_cast hm)]
  exact_mod_cast h

theorem mem_mostCommon_count {α : Type} [DecidableEq α] (b : Option ℕ)
    (l : List α) : ∀ x ∈ mostCommon b l, x.2 = l.count x.1 := by
  intro x hx
  have hx' : x ∈ sortDescBy (fun p : α × ℕ => p.2)
      ((firstUniq l).map (fun v => (v, l.count v))) := by
    cases b with
    | none => simpa [mostCommon] using hx
    | some k =>
      exact List.mem_of_mem_take (by simpa [mostCommon] using hx)
  rw [mem_sortDescBy] at hx'
  rcases List.mem_map.mp hx' with ⟨v, _, rfl⟩
  rfl

theorem analyzeTimePatterns_shape (tasks : List Task) :
    ∀ p ∈ analyzeTimePatterns tasks,
      p.confidence ≤ 1 ∧ (p.ptype = "time_based" ∨ p.ptype = "day_based") ∧
        3 ≤ p.frequency := by
  intro p hp
  simp only [analyzeTimePatterns, List.mem_append, List.mem_filterMap] at hp
  rcases hp with ⟨tod, _, heq⟩ | ⟨d, _, heq⟩ <;> split at heq <;>
    simp only [Option.some.injEq, reduceCtorEq] at heq <;> subst heq
  · exact ⟨min_le_right _ _, Or.inl rfl, by assumption⟩
  · exact ⟨min_le_right _ _, Or.inr rfl, by assumption⟩

theorem analyzeTitlePatterns_shape (tasks : List Task) :
    ∀ p ∈ analyzeTitlePatterns tasks,
      p.confidence ≤ 1 ∧ p.ptype = "recurring_task" ∧ 3 ≤ p.frequency := by
  intro p hp
  simp only [analyzeTitlePatterns, List.mem_filterMap] at hp
  rcases hp with ⟨kc, _, heq⟩
  split at heq <;> simp only [Option.some.injEq, reduceCtorEq] at heq
  subst heq
  exact ⟨min_le_right _ _, rfl, by assumption⟩

theorem analyzePriorityPatterns_shape (tasks : List Task) :
    ∀ p ∈ analyzePriorityPatterns tasks,
      p.confidence ≤ 1 ∧ p.ptype = "priority_preference" ∧ 3 ≤ p.frequency := by
  intro p hp
  simp only [analyzePriorityPatterns, List.mem_filterMap] at hp
  rcases hp with ⟨pr, _, heq⟩
  split at heq <;> simp only [Option.some.injEq, reduceCtorEq] at heq
  subst heq
  rename_i hn
  refine ⟨?_, rfl, hn⟩
  have hle : (tasks.map Task.priority).count pr ≤ tasks.length := by
    simpa using List.count_le_length pr (tasks.map Task.priority)
  exact natCast_div_le_one hle (lt_of_lt_of_le (by omega) hle)

theorem analyzeCommandPatterns_shape (commands : List CommandRow) :
    ∀ p ∈ analyzeCommandPatterns commands,
      p.confidence ≤ 1 ∧ (p.ptype = "command_usage" ∨ p.ptype = "time_command") ∧
        3 ≤ p.frequency := by
  intro p hp
  simp only [analyzeCommandPatterns, List.mem_append, List.mem_filterMap] at hp
  rcases hp with ⟨tc, htc, heq⟩ | ⟨tod, _, heq⟩ <;> split at heq <;>
    simp only [Option.some.injEq, reduceCtorEq] at heq <;> subst heq
  · rename_i hn
    refine ⟨?_, Or.inl rfl, hn⟩
    by_cases he : commands = []
    · simp [he]
    · have hcnt := mem_mostCommon_count none (commands.map CommandRow.commandType) tc htc
      have hle : tc.2 ≤ commands.length := by
        rw [hcnt]
        simpa using List.count_le_length tc.1 (commands.map CommandRow.commandType)
      have hpos : 0 < commands.length := List.length_pos.mpr he
      simp only [he, if_false]
      exact natCast_div_le_one hle hpos
  · rename_i hn
    refine ⟨?_, Or.inr rfl, hn⟩
    have hle : (commands.filter fun c => timeOfDay c.executedHour == tod).length ≤
        commands.length := List.length_filter_le _ _
    have hpos : 0 < commands.length := by omega
    have he : ¬ commands = [] := by
      intro h
      rw [h] at hpos
      simp at hpos
    simp only [he, if_false]
    exact natCast_div_le_one hle hpos

theorem analyzeConversationPatterns_shape (contexts : List ConvContext) :
    ∀ p ∈ analyzeConversationPatterns contexts,
      p.confidence ≤ 1 ∧
        (p.ptype = "language_preference" ∨
          ((p.ptype = "channel_preference" ∨ p.ptype = "intent_pattern") ∧
            3 ≤ p.frequency)) := by
  intro p hp
  by_cases he : contexts = []
  · simp [analyzeConversationPatterns, he] at hp
  have hlen : 0 < contexts.length := List.length_pos.mpr he
  simp only [analyzeConversationPatterns, he, if_false, List.mem_append] at hp
  rcases hp with (hp | hp) | hp
  · rcases List.mem_map.mp hp with ⟨lg, _, heq⟩
    subst heq
    refine ⟨?_, Or.inl rfl⟩
    have hle : (contexts.map ConvContext.language).count lg ≤ contexts.length := by
      simpa using List.count_le_length lg (contexts.map ConvContext.language)
    exact natCast_div_le_one hle hlen
  · rcases List.mem_filterMap.mp hp with ⟨ch, _, heq⟩
    split at heq <;> simp only [Option.some.injEq, reduceCtorEq] at heq
    subst heq
    rename_i hn
    refine ⟨?_, Or.inr ⟨Or.inl rfl, hn⟩⟩
    have hle : (contexts.map ConvContext.channel).count ch ≤ contexts.length := by
      simpa using List.count_le_length ch (contexts.map ConvContext.channel)
    exact natCast_div_le_one hle hlen
  · rcases List.mem_filterMap.mp hp with ⟨ic, hic, heq⟩
    split at heq <;> simp only [Option.some.injEq, reduceCtorEq] at heq
    subst heq
    rename_i hn
    refine ⟨?_, Or.inr ⟨Or.inr rfl, hn⟩⟩
    have hcnt := mem_mostCommon_count (some 5)
      ((contexts.map ConvContext.intent).filter (fun i => i ≠ "")) ic hic
    have hle : ic.2 ≤ contexts.length := by
      rw [hcnt]
      calc ((contexts.map ConvContext.intent).filter (fun i => i ≠ "")).count ic.1
          ≤ ((contexts.map ConvContext.intent).filter (fun i => i ≠ "")).length :=
            List.count_le_length _ _
        _ ≤ (contexts.map ConvContext.intent).length := List.length_filter_le _ _
        _ = contexts.length := by simp
    exact natCast_div_le_one hle hlen

theorem confidence_le_one_of_mem_analyzers (tasks : List Task)
    (commands : List CommandRow) (contexts : List ConvContext) :
    ∀ p ∈ analyzeTaskPatterns tasks ++ analyzeCommandPatterns commands ++
        analyzeConversationPatterns contexts,
      p.confidence ≤ 1 := by
  intro p hp
  simp only [analyzeTaskPatterns, List.mem_append, List.append_assoc] at hp
  rcases hp with h | h | h | h | h
  · exact (analyzeTimePatterns_shape tasks p h).1
  · exact (analyzeTitlePatterns_shape tasks p h).1
  · exact (analyzePriorityPatterns_shape tasks p h).1
  · exact (analyzeCommandPatterns_shape commands p h).1
  · exact (analyzeConversationPatterns_shape contexts p h).1

/-- C4: every pattern in the list returned by `detect_new_patterns` has a
confidence `c` with `0.6 ≤ c ≤ 1`, and the list is sorted in descending
order of confidence. -/
theorem detectNewPatterns_bounds_sorted (tasks : List Task)
    (commands : List CommandRow) (contexts : List ConvContext) :
    (∀ p ∈ detectNewPatterns tasks commands contexts,
        (6 : ℚ) / 10 ≤ p.confidence ∧ p.confidence ≤ 1) ∧
      (detectNewPatterns tasks commands contexts).Pairwise
        (fun a b => b.confidence ≤ a.confidence) := by
  constructor
  · intro p hp
    rw [detectNewPatterns, mem_sortDescBy] at hp
    have hmem := List.mem_filter.mp hp
    refine ⟨of_decide_eq_true hmem.2, ?_⟩
    exact confidence_le_one_of_mem_analyzers tasks commands contexts p hmem.1
  · exact pairwise_sortDescBy Pattern.confidence _

/-- Witness for C4 at a concrete input: a single conversation context in
English yields exactly one (language-preference) pattern, whose confidence
lies in the required interval. -/
theorem detectNewPatterns_bounds_sorted_witness :
    (6 : ℚ) / 10 ≤
        (Pattern.mk "language_preference" 1 1 none none none (some "en")).confidence ∧
      (Pattern.mk "language_preference" 1 1 none none none (some "en")).confidence ≤ 1 :=
  (detectNewPatterns_bounds_sorted [] []
      [⟨"u", none, "", "en", "text", 0⟩]).1 _ (by decide)

/-- C5 as stated: every categorical preference pattern
(priority, language, channel, intent) is emitted only when its frequency
is at least `min_occurrences = 3`. -/
def categoricalGatingClaim : Prop :=
  ∀ (tasks : List Task) (contexts : List ConvContext) (p : Pattern),
    ((p ∈ analyzeTaskPatterns tasks ∧ p.ptype = "priority_preference") ∨
      (p ∈ analyzeConversationPatterns contexts ∧
        (p.ptype = "language_preference" ∨ p.ptype = "channel_preference" ∨
          p.ptype = "intent_pattern"))) →
    3 ≤ p.frequency

/-- C5 counterexample: a single conversation context yields a
`language_preference` pattern with frequency 1 < 3 — the language branch
of `analyze_conversation_patterns` has no `min_occurrences` gate. -/
theorem categoricalGatingClaim_false : ¬ categoricalGatingClaim := by
  intro h
  have h1 := h [] [⟨"u", none, "", "en", "text", 0⟩]
    (Pattern.mk "language_preference" 1 1 none none none (some "en"))
    (Or.inr ⟨by decide, Or.inl rfl⟩)
  exact absurd h1 (by decide)

/-- C5 (amended): `priority_preference`, `channel_preference` and
`intent_pattern` patterns are emitted only when their frequency is at
least `min_occurrences = 3`; `language_preference` patterns are not
gated this way. -/
theorem categorical_preference_gating (tasks : List Task)
    (contexts : List ConvContext) :
    (∀ p ∈ analyzeTaskPatterns tasks,
        p.ptype = "priority_preference" → 3 ≤ p.frequency) ∧
      (∀ p ∈ analyzeConversationPatterns contexts,
        p.ptype = "channel_preference" ∨ p.ptype = "intent_pattern" →
          3 ≤ p.frequency) := by
  constructor
  · intro p hp _
    simp only [analyzeTaskPatterns, List.mem_append] at hp
    rcases hp with (h | h) | h
    · exact (analyzeTimePatterns_shape tasks p h).2.2
    · exact (analyzeTitlePatterns_shape tasks p h).2.2
    · exact (analyzePriorityPatterns_shape tasks p h).2.2
  · intro p hp hty
    rcases (analyzeConversationPatterns_shape contexts p hp).2 with h | h
    · rcases hty with ht | ht <;> rw [h] at ht <;> exact absurd ht (by decide)
    · exact h.2

/-- Witness for the amended C5: three contexts on the same channel produce
a channel-preference pattern with frequency 3, which passes the gate. -/
theorem categorical_preference_gating_witness :
    3 ≤ (Pattern.mk "channel_preference" 1 3 none none none (some "text")).frequency :=
  (categorical_preference_gating []
      [⟨"u", none, "", "en", "text", 0⟩, ⟨"u", none, "", "en", "text", 1⟩,
        ⟨"u", none, "", "en", "text", 2⟩]).2 _ (by decide) (Or.inl rfl)

/-! ## Task Predictor (`src/learning/task_predictor.py`)

`predict_tasks` builds a candidate list from three generators (time
patterns, recurring tasks, history), deduplicates it by
`task.lower().strip()`, sorts descending by confidence and returns the
first `limit` entries.  The generators involve the wall clock, the
database and `random.choice`, so the returned-list properties are
proved over an arbitrary candidate list; the database write-back does
not affect the returned value. -/

/-- A candidate prediction dict (fields the dedup/sort/truncate
pipeline reads). -/
structure PredEntry where
  task : String
  reason : String
  confidence : ℚ
deriving DecidableEq

/-- Python `s.lower().strip()` on the character list. -/
def lowerStrip (s : String) : String :=
  String.mk (List.reverse (List.dropWhile Char.isWhitespace
    (List.reverse (List.dropWhile Char.isWhitespace (s.data.map Char.toLower)))))

/-- `TaskPredictor._deduplicate_predictions`: keep the first entry for
each normalized title; `seen` is the accumulated set of normalized
titles. -/
def deduplicatePredictions (seen : List String) : List PredEntry → List PredEntry
  | [] => []
  | p :: ps =>
    if lowerStrip p.task ∈ seen then deduplicatePredictions seen ps
    else p :: deduplicatePredictions (lowerStrip p.task :: seen) ps

/-- The value returned by `TaskPredictor.predict_tasks`: deduplicate,
stable-sort descending by confidence, truncate to `limit`. -/
def predictTasks (preds : List PredEntry) (limit : ℕ) : List PredEntry :=
  (sortDescBy PredEntry.confidence (deduplicatePredictions [] preds)).take limit

theorem mem_deduplicatePredictions_key_not_seen (seen : List String) :
    ∀ l : List PredEntry, ∀ p ∈ deduplicatePredictions seen l,
      lowerStrip p.task ∉ seen := by
  intro l
  induction l generalizing seen with
  | nil => intro p hp; simp [deduplicatePredictions] at hp
  | cons q ps ih =>
    intro p hp
    by_cases hq : lowerStrip q.task ∈ seen
    · simp only [deduplicatePredictions, hq, if_true] at hp
      exact ih seen p hp
    · simp only [deduplicatePredictions, hq, if_false, List.mem_cons] at hp
      rcases hp with rfl | hp
      · exact hq
      · have := ih (lowerStrip q.task :: seen) p hp
        exact fun hm => this (List.mem_cons_of_mem _ hm)

theorem pairwise_deduplicatePredictions (seen : List String) :
    ∀ l : List PredEntry, (deduplicatePredictions seen l).Pairwise
      (fun a b => lowerStrip a.task ≠ lowerStrip b.task) := by
  intro l
  induction l generalizing seen with
  | nil => exact List.Pairwise.nil
  | cons q ps ih =>
    by_cases hq : lowerStrip q.task ∈ seen
    · simpa only [deduplicatePredictions, hq, if_true] using ih seen
    · simp only [deduplicatePredictions, hq, if_false]
      refine List.pairwise_cons.mpr ⟨?_, ih _⟩
      intro b hb heq
      have := mem_deduplicatePredictions_key_not_seen _ _ b hb
      exact this (heq ▸ List.mem_cons_self _ _)

theorem find?_deduplicatePredictions (seen : List String) :
    ∀ l : List PredEntry, ∀ p ∈ deduplicatePredictions seen l,
      l.find? (fun q => lowerStrip q.task == lowerStrip p.task) = some p := by
  intro l
  induction l generalizing seen with
  | nil => intro p hp; simp [deduplicatePredictions] at hp
  | cons q ps ih =>
    intro p hp
    by_cases hq : lowerStrip q.task ∈ seen
    · simp only [deduplicatePredictions, hq, if_true] at hp
      have hne : lowerStrip q.task ≠ lowerStrip p.task := by
        intro heq
        exact mem_deduplicatePredictions_key_not_seen seen ps p hp (heq ▸ hq)
      rw [List.find?_cons_of_neg _ (by simpa using hne)]
      exact ih seen p hp
    · simp only [deduplicatePredictions, hq, if_false, List.mem_cons] at hp
      rcases hp with rfl | hp
      · exact List.find?_cons_of_pos _ (by simp)
      · have hnotin := mem_deduplicatePredictions_key_not_seen _ _ p hp
        have hne : lowerStrip q.task ≠ lowerStrip p.task := by
          intro heq
          exact hnotin (heq ▸ List.mem_cons_self _ _)
        rw [List.find?_cons_of_neg _ (by simpa using hne)]
        exact ih _ p hp

/-- C1: for every candidate list and limit, `predict_tasks` returns at
most `limit` entries, no two of which share a lowercased-and-trimmed
title, each entry being the first candidate generated with its title,
and the returned list is sorted in descending order of confidence. -/
theorem predictTasks_spec (preds : List PredEntry) (limit : ℕ) :
    (predictTasks preds limit).length ≤ limit ∧
      (predictTasks preds limit).Pairwise
        (fun a b => lowerStrip a.task ≠ lowerStrip b.task) ∧
      (predictTasks preds limit).Pairwise
        (fun a b => b.confidence ≤ a.confidence) ∧
      ∀ p ∈ predictTasks preds limit,
        preds.find? (fun q => lowerStrip q.task == lowerStrip p.task) = some p := by
  refine ⟨?_, ?_, ?_, ?_⟩
  · simp [predictTasks]
  · have hperm := perm_sortDescBy PredEntry.confidence
      (deduplicatePredictions [] preds)
    have hpw := (hperm.pairwise_iff (fun h => Ne.symm h)).mpr
      (pairwise_deduplicatePredictions [] preds)
    exact List.Pairwise.sublist (List.take_sublist _ _) hpw
  · exact List.Pairwise.sublist (List.take_sublist _ _)
      (pairwise_sortDescBy PredEntry.confidence _)
  · intro p hp
    have hp1 : p ∈ sortDescBy PredEntry.confidence
        (deduplicatePredictions [] preds) := List.mem_of_mem_take hp
    rw [mem_sortDescBy] at hp1
    exact find?_deduplicatePredictions [] preds p hp1

/-- Witness for C1 at a concrete input: two candidates whose titles agree
after lowercasing and trimming are collapsed to the first one. -/
theorem predictTasks_spec_witness :
    [PredEntry.mk " A" "r1" (1/2), PredEntry.mk "a " "r2" (3/4),
        PredEntry.mk "b" "r3" (1/4)].find?
      (fun q => lowerStrip q.task == lowerStrip (PredEntry.mk " A" "r1" (1/2)).task) =
      some (PredEntry.mk " A" "r1" (1/2)) :=
  (predictTasks_spec [PredEntry.mk " A" "r1" (1/2), PredEntry.mk "a " "r2" (3/4),
      PredEntry.mk "b" "r3" (1/4)] 2).2.2.2 _ (by decide)

/-! ### Stored predictions, feedback and accuracy -/

/-- A `TaskPrediction` row (fields read by the feedback and accuracy
methods).  `accepted_by_user` is a nullable boolean column whose `NULL`
and `False` states are indistinguishable to the filters below, so it is
embedded as `Bool`. -/
structure TaskPrediction where
  id : ℕ
  userId : String
  predictedTask : String
  shownToUser : Bool := false
  acceptedByUser : Bool := false
  dismissedByUser : Bool := false
  acceptedAt : Option ℤ := none
deriving DecidableEq

/-- `TaskPredictor.accept_prediction`: find the first prediction with
this id belonging to this user; if none, return failure without
touching the store; otherwise set `accepted_by_user`, `accepted_at` and
`shown_to_user` and return success. -/
def acceptPrediction (userId : String) (predictionId : ℕ) (now : ℤ)
    (store : List TaskPrediction) : List TaskPrediction × Bool :=
  if (store.find? (fun r => r.id == predictionId && r.userId == userId)).isSome then
    (mapFirst (fun r => r.id == predictionId && r.userId == userId)
      (fun r => { r with acceptedByUser := true, acceptedAt := some now,
                         shownToUser := true }) store, true)
  else (store, false)

/-- `TaskPredictor.dismiss_prediction`: as `accept_prediction` but
setting `dismissed_by_user` (and no timestamp). -/
def dismissPrediction (userId : String) (predictionId : ℕ)
    (store : List TaskPrediction) : List TaskPrediction × Bool :=
  if (store.find? (fun r => r.id == predictionId && r.userId == userId)).isSome then
    (mapFirst (fun r => r.id == predictionId && r.userId == userId)
      (fun r => { r with dismissedByUser := true, shownToUser := true }) store, true)
  else (store, false)

/-- The dict returned by `TaskPredictor.get_prediction_accuracy`. -/
structure AccuracyReport where
  totalPredictions : ℕ
  accepted : ℕ
  dismissed : ℕ
  accuracy : ℚ
  acceptanceRate : ℚ
deriving DecidableEq

/-- `TaskPredictor.get_prediction_accuracy`: counts of shown, accepted
and dismissed predictions of the user; `accuracy = accepted / total`
guarded by `total > 0`. -/
def getPredictionAccuracy (userId : String) (store : List TaskPrediction) :
    AccuracyReport :=
  let total := (store.filter (fun r => r.userId == userId && r.shownToUser)).length
  let accepted := (store.filter (fun r => r.userId == userId && r.acceptedByUser)).length
  let dismissed := (store.filter (fun r => r.userId == userId && r.dismissedByUser)).length
  { totalPredictions := total, accepted := accepted, dismissed := dismissed,
    accuracy := if 0 < total then (accepted : ℚ) / (total : ℚ) else 0,
    acceptanceRate := if 0 < total then (accepted : ℚ) / (total : ℚ) else 0 }

theorem mapFirst_mem_update {α : Type} (p : α → Bool) (f : α → α) :
    ∀ l : List α, ∀ x : α, l.find? p = some x → f x ∈ mapFirst p f l := by
  intro l
  induction l with
  | nil => intro x hx; simp at hx
  | cons y ys ih =>
    intro x hx
    by_cases hy : p y
    · rw [List.find?_cons_of_pos _ hy] at hx
      cases hx
      simp [mapFirst, hy]
    · rw [List.find?_cons_of_neg _ (by simpa using hy)] at hx
      simp only [mapFirst, hy, Bool.false_eq_true, if_false, List.mem_cons]
      exact Or.inr (ih x hx)

theorem mapFirst_mem_untouched {α : Type} (p : α → Bool) (f : α → α) :
    ∀ l : List α, ∀ x ∈ l, p x = false → x ∈ mapFirst p f l := by
  intro l
  induction l with
  | nil => intro x hx; simp at hx
  | cons y ys ih =>
    intro x hx hpx
    rcases List.mem_cons.mp hx with rfl | hx
    · simp [mapFirst, hpx]
    · by_cases hy : p y
      · simp only [mapFirst, hy, if_true, List.mem_cons]
        exact Or.inr hx
      · simp only [mapFirst, hy, Bool.false_eq_true, if_false, List.mem_cons]
        exact Or.inr (ih x hx hpx)

/-- C6: `accept_prediction` and `dismiss_prediction` fail and leave the
store untouched when no prediction with the given id belongs to the
user; when one does, both succeed, the first matching row is updated
with the terminal flag plus `shown_to_user = true`, and every
non-matching row is preserved. -/
theorem prediction_feedback_spec (store : List TaskPrediction)
    (userId : String) (predictionId : ℕ) (now : ℤ) :
    ((∀ r ∈ store, ¬(r.id = predictionId ∧ r.userId = userId)) →
        acceptPrediction userId predictionId now store = (store, false) ∧
          dismissPrediction userId predictionId store = (store, false)) ∧
      ((∃ r ∈ store, r.id = predictionId ∧ r.userId = userId) →
        (acceptPrediction userId predictionId now store).2 = true ∧
          (dismissPrediction userId predictionId store).2 = true ∧
          (∃ r ∈ store, (r.id = predictionId ∧ r.userId = userId) ∧
            { r with acceptedByUser := true, acceptedAt := some now,
                     shownToUser := true } ∈
                (acceptPrediction userId predictionId now store).1 ∧
              { r with dismissedByUser := true, shownToUser := true } ∈
                (dismissPrediction userId predictionId store).1) ∧
          ∀ r ∈ store, ¬(r.id = predictionId ∧ r.userId = userId) →
            r ∈ (acceptPrediction userId predictionId now store).1 ∧
              r ∈ (dismissPrediction userId predictionId store).1) := by
  constructor
  · intro hnone
    have hfind : store.find?
        (fun r => r.id == predictionId && r.userId == userId) = none := by
      rw [List.find?_eq_none]
      intro r hr
      simpa using hnone r hr
    constructor <;> simp [acceptPrediction, dismissPrediction, hfind]
  · intro hsome
    have hfind : (store.find?
        (fun r => r.id == predictionId && r.userId == userId)).isSome := by
      rcases hsome with ⟨r, hr, hid, huid⟩
      rw [List.find?_isSome]
      exact ⟨r, hr, by simp [hid, huid]⟩
    obtain ⟨x, hx⟩ := Option.isSome_iff_exists.mp hfind
    have hxmem : x ∈ store := List.mem_of_find?_eq_some hx
    have hxkey : x.id = predictionId ∧ x.userId = userId := by
      have := List.find?_some hx
      simpa using this
    refine ⟨by simp [acceptPrediction, hfind], by simp [dismissPrediction, hfind],
      ⟨x, hxmem, hxkey, ?_, ?_⟩, ?_⟩
    · simp only [acceptPrediction, hfind, if_true]
      exact mapFirst_mem_update _ _ store x hx
    · simp only [dismissPrediction, hfind, if_true]
      exact mapFirst_mem_update _ _ store x hx
    · intro r hr hrkey
      have hpr : (r.id == predictionId && r.userId == userId) = false := by
        rcases Decidable.em (r.id = predictionId) with h1 | h1 <;>
          rcases Decidable.em (r.userId = userId) with h2 | h2 <;>
          simp [h1, h2] at hrkey ⊢
      constructor
      · simp only [acceptPrediction, hfind, if_true]
        exact mapFirst_mem_untouched _ _ store r hr hpr
      · simp only [dismissPrediction, hfind, if_true]
        exact mapFirst_mem_untouched _ _ store r hr hpr

/-- Witness for C6 at a concrete input: accepting the single matching
prediction succeeds, and accepting a missing one fails and keeps the
store. -/
theorem prediction_feedback_spec_witness :
    (acceptPrediction "u" 1 5 [TaskPrediction.mk 1 "u" "t" false false false none]).2 =
      true :=
  ((prediction_feedback_spec [TaskPrediction.mk 1 "u" "t" false false false none]
      "u" 1 5).2 ⟨TaskPrediction.mk 1 "u" "t" false false false none,
        by decide, rfl, rfl⟩).1

/-- C10: `get_prediction_accuracy` is total; with no shown predictions
it reports accuracy 0, otherwise accuracy is the ratio of accepted to
shown predictions. -/
theorem getPredictionAccuracy_total_safe (userId : String)
    (store : List TaskPrediction) :
    ((getPredictionAccuracy userId store).totalPredictions = 0 →
        (getPredictionAccuracy userId store).accuracy = 0) ∧
      (0 < (getPredictionAccuracy userId store).totalPredictions →
        (getPredictionAccuracy userId store).accuracy *
            ((getPredictionAccuracy userId store).totalPredictions : ℚ) =
          ((getPredictionAccuracy userId store).accepted : ℚ)) := by
  constructor
  · intro h0
    simp only [getPredictionAccuracy] at h0 ⊢
    simp [h0]
  · intro hpos
    simp only [getPredictionAccuracy] at hpos ⊢
    rw [if_pos hpos, div_mul_cancel₀]
    exact_mod_cast Nat.pos_iff_ne_zero.mp hpos

/-- Witness for C10: one shown-and-accepted prediction gives accuracy
1 = 1/1. -/
theorem getPredictionAccuracy_total_safe_witness :
    (getPredictionAccuracy "u" [TaskPrediction.mk 1 "u" "t" true true false none]).accuracy *
        ((getPredictionAccuracy "u"
            [TaskPrediction.mk 1 "u" "t" true true false none]).totalPredictions : ℚ) =
      ((getPredictionAccuracy "u"
          [TaskPrediction.mk 1 "u" "t" true true false none]).accepted : ℚ) :=
  (getPredictionAccuracy_total_safe "u"
      [TaskPrediction.mk 1 "u" "t" true true false none]).2 (by decide)

/-! ## Mood Detector (`src/learning/mood_detector.py`)

`analyze_mood_trend` is a pure function over a mood-history list; an
entry is a `{mood, confidence}` dict.  The `mood_distribution` dict of
the returned value is presentation-only and elided. -/

/-- One entry of a mood history. -/
structure MoodEntry where
  mood : String
  confidence : ℚ
deriving DecidableEq

/-- The dict returned by `analyze_mood_trend`. -/
structure MoodTrend where
  trend : String
  avgConfidence : ℚ
  dominantMood : String
  moodStability : ℚ
  totalSamples : ℕ
deriving DecidableEq

/-- `moods[-3:]`: the last three moods of the history. -/
def recentMoods3 (history : List MoodEntry) : List String :=
  (history.map MoodEntry.mood).drop ((history.map MoodEntry.mood).length - 3)

/-- `MoodDetector.analyze_mood_trend`. -/
def analyzeMoodTrend (history : List MoodEntry) : MoodTrend :=
  if history = [] then
    { trend := "unknown", avgConfidence := 0, dominantMood := "neutral",
      moodStability := 0, totalSamples := 0 }
  else
    let moods := history.map MoodEntry.mood
    let confidences := history.map MoodEntry.confidence
    let dominantMood := ((mostCommon (some 1) moods).map Prod.fst).headD "neutral"
    let changes := (moods.zip moods.tail).countP (fun p => p.1 ≠ p.2)
    let stability : ℚ :=
      if 1 < moods.length then 1 - ((changes : ℚ) / (moods.length : ℚ)) else 1
    let trend :=
      if 3 ≤ history.length then
        if (recentMoods3 history).all
            (fun m => m ∈ (["happy", "excited"] : List String)) then "improving"
        else if (recentMoods3 history).all
            (fun m => m ∈ (["sad", "anxious", "angry"] : List String)) then
          "declining"
        else "stable"
      else "insufficient_data"
    { trend := trend,
      avgConfidence := confidences.sum / (confidences.length : ℚ),
      dominantMood := dominantMood,
      moodStability := stability,
      totalSamples := history.length }

/-- The trend component of `analyze_mood_trend` on a nonempty history. -/
theorem analyzeMoodTrend_trend_eq (history : List MoodEntry) (hne : history ≠ []) :
    (analyzeMoodTrend history).trend =
      if 3 ≤ history.length then
        if (recentMoods3 history).all
            (fun m => m ∈ (["happy", "excited"] : List String)) then "improving"
        else if (recentMoods3 history).all
            (fun m => m ∈ (["sad", "anxious", "angry"] : List String)) then
          "declining"
        else "stable"
      else "insufficient_data" := by
  rw [analyzeMoodTrend, if_neg hne]

/-- C7: `analyze_mood_trend` returns `unknown`/`neutral`/stability 0 on
the empty history, `insufficient_data` on any shorter-than-3 nonempty
history, `improving` when the last 3 moods are all happy/excited,
`declining` when they are all sad/anxious/angry, and `stable`
otherwise. -/
theorem analyzeMoodTrend_spec :
    ((analyzeMoodTrend []).trend = "unknown" ∧
        (analyzeMoodTrend []).dominantMood = "neutral" ∧
        (analyzeMoodTrend []).moodStability = 0) ∧
      (∀ history : List MoodEntry, history ≠ [] → history.length < 3 →
        (analyzeMoodTrend history).trend = "insufficient_data") ∧
      (∀ history : List MoodEntry, 3 ≤ history.length →
        (∀ m ∈ recentMoods3 history, m = "happy" ∨ m = "excited") →
        (analyzeMoodTrend history).trend = "improving") ∧
      (∀ history : List MoodEntry, 3 ≤ history.length →
        (∀ m ∈ recentMoods3 history, m = "sad" ∨ m = "anxious" ∨ m = "angry") →
        (analyzeMoodTrend history).trend = "declining") ∧
      (∀ history : List MoodEntry, 3 ≤ history.length →
        ¬(∀ m ∈ recentMoods3 history, m = "happy" ∨ m = "excited") →
        ¬(∀ m ∈ recentMoods3 history, m = "sad" ∨ m = "anxious" ∨ m = "angry") →
        (analyzeMoodTrend history).trend = "stable") := by
  refine ⟨⟨rfl, rfl, rfl⟩, ?_, ?_, ?_, ?_⟩
  · intro history hne hlt
    rw [analyzeMoodTrend_trend_eq history hne, if_neg (Nat.not_le.mpr hlt)]
  · intro history h3 hall
    have hne : history ≠ [] := by
      intro h
      rw [h] at h3
      simp at h3
    have hall' : (recentMoods3 history).all
        (fun m => m ∈ (["happy", "excited"] : List String)) = true := by
      rw [List.all_eq_true]
      intro m hm
      rcases hall m hm with h | h <;> simp [h]
    rw [analyzeMoodTrend_trend_eq history hne, if_pos h3, if_pos hall']
  · intro history h3 hall
    have hne : history ≠ [] := by
      intro h
      rw [h] at h3
      simp at h3
    have hlen3 : (recentMoods3 history).length = 3 := by
      simp only [recentMoods3, List.length_drop, List.length_map]
      omega
    obtain ⟨m0, hm0⟩ : ∃ m, m ∈ recentMoods3 history := by
      cases hrm : recentMoods3 history with
      | nil => rw [hrm] at hlen3; simp at hlen3
      | cons a l => exact ⟨a, hrm ▸ List.mem_cons_self a l⟩
    have hnotimp : ¬((recentMoods3 history).all
        (fun m => m ∈ (["happy", "excited"] : List String)) = true) := by
      rw [List.all_eq_true]
      intro hcontra
      have := hcontra m0 hm0
      rcases hall m0 hm0 with h | h | h <;> rw [h] at this <;> simp at this
    have hall' : (recentMoods3 history).all
        (fun m => m ∈ (["sad", "anxious", "angry"] : List String)) = true := by
      rw [List.all_eq_true]
      intro m hm
      rcases hall m hm with h | h | h <;> simp [h]
    rw [analyzeMoodTrend_trend_eq history hne, if_pos h3, if_neg hnotimp,
      if_pos hall']
  · intro history h3 hni hnd
    have hne : history ≠ [] := by
      intro h
      rw [h] at h3
      simp at h3
    have hnotimp : ¬((recentMoods3 history).all
        (fun m => m ∈ (["happy", "excited"] : List String)) = true) := by
      rw [List.all_eq_true]
      intro hcontra
      refine hni fun m hm => ?_
      have := hcontra m hm
      simpa using this
    have hnotdec : ¬((recentMoods3 history).all
        (fun m => m ∈ (["sad", "anxious", "angry"] : List String)) = true) := by
      rw [List.all_eq_true]
      intro hcontra
      refine hnd fun m hm => ?_
      have := hcontra m hm
      simpa using this
    rw [analyzeMoodTrend_trend_eq history hne, if_pos h3, if_neg hnotimp,
      if_neg hnotdec]

/-- Witness for C7: three consecutive happy entries give an improving
trend. -/
theorem analyzeMoodTrend_spec_witness :
    (analyzeMoodTrend [MoodEntry.mk "happy" 1, MoodEntry.mk "happy" 1,
        MoodEntry.mk "happy" 1]).trend = "improving" :=
  analyzeMoodTrend_spec.2.2.1
    [MoodEntry.mk "happy" 1, MoodEntry.mk "happy" 1, MoodEntry.mk "happy" 1]
    (by decide) (by decide)

/-! ## Context Manager (`src/learning/context_manager.py`)

`get_recent_context` filters the `ConversationContext` table by user,
optional session and (unless `include_expired`) a 30-minute cutoff,
orders by timestamp descending, applies the SQL `LIMIT`, and reverses
to chronological order.  Time is in minutes; `now` is the time of the
call.  Python's `limit = limit or self.default_context_window` maps
`limit = 0` (and `None`) to the default 10. -/

/-- The effective limit: `limit or default_context_window`. -/
def effectiveLimit (limit : ℕ) : ℕ := if limit = 0 then 10 else limit

/-- `ContextManager.get_recent_context` (returning the selected rows;
the dict projection keeps all fields used by the claim). -/
def getRecentContext (now : ℤ) (userId : String) (limit : ℕ)
    (sessionId : Option String) (includeExpired : Bool)
    (table : List ConvContext) : List ConvContext :=
  let q1 := table.filter (fun c => c.userId == userId)
  let q2 := match sessionId with
    | none => q1
    | some sid => if sid = "" then q1 else q1.filter (fun c => c.sessionId == some sid)
  let q3 := if includeExpired then q2
    else q2.filter (fun c => now - 30 ≤ c.timestamp)
  ((sortDescBy (fun c => c.timestamp) q3).take (effectiveLimit limit)).reverse

/-- C9 as stated: for every user and every limit, `get_recent_context`
returns at most `limit` entries, in ascending timestamp order, and with
`include_expired = false` no entry older than 30 minutes before the
call. -/
def recentContextClaim : Prop :=
  ∀ (now : ℤ) (userId : String) (limit : ℕ) (sessionId : Option String)
    (table : List ConvContext),
    (getRecentContext now userId limit sessionId false table).length ≤ limit ∧
      (getRecentContext now userId limit sessionId false table).Chain'
        (fun a b => a.timestamp ≤ b.timestamp) ∧
      ∀ c ∈ getRecentContext now userId limit sessionId false table,
        now - 30 ≤ c.timestamp

/-- C9 counterexample: `limit = 0` is falsy in Python, so
`limit or self.default_context_window` replaces it with 10 and a
matching row is returned even though the claim demands at most 0
entries. -/
theorem recentContextClaim_false : ¬ recentContextClaim := by
  intro h
  have h1 := (h 0 "u" 0 none [⟨"u", none, "", "en", "text", 0⟩]).1
  rw [show getRecentContext 0 "u" 0 none false [⟨"u", none, "", "en", "text", 0⟩] =
    [⟨"u", none, "", "en", "text", 0⟩] from by decide] at h1
  exact absurd h1 (by decide)

/-- C9 (amended): for every positive limit, `get_recent_context` returns
at most `limit` entries, in ascending timestamp order, and with
`include_expired = false` every returned entry has a timestamp no older
than 30 minutes before the call; `limit = 0` (like `None`) falls back
to the default window of 10. -/
theorem getRecentContext_spec (now : ℤ) (userId : String) (limit : ℕ)
    (sessionId : Option String) (table : List ConvContext) (hpos : 0 < limit) :
    (getRecentContext now userId limit sessionId false table).length ≤ limit ∧
      (getRecentContext now userId limit sessionId false table).Chain'
        (fun a b => a.timestamp ≤ b.timestamp) ∧
      ∀ c ∈ getRecentContext now userId limit sessionId false table,
        now - 30 ≤ c.timestamp := by
  have hlim : effectiveLimit limit = limit := by
    rw [effectiveLimit, if_neg (Nat.pos_iff_ne_zero.mp hpos)]
  refine ⟨?_, ?_, ?_⟩
  · simp only [getRecentContext, List.length_reverse, List.length_take, hlim]
    exact min_le_left _ _
  · apply List.Pairwise.chain'
    simp only [getRecentContext]
    rw [List.pairwise_reverse]
    exact List.Pairwise.sublist (List.take_sublist _ _)
      (pairwise_sortDescBy (fun c : ConvContext => c.timestamp) _)
  · intro c hc
    simp only [getRecentContext, Bool.false_eq_true, if_false, List.mem_reverse]
      at hc
    have hc1 := List.mem_of_mem_take hc
    rw [mem_sortDescBy] at hc1
    have := (List.mem_filter.mp hc1).2
    simpa using this

/-- Witness for the amended C9: with `limit = 1` a single in-window row
is returned and the cutoff holds for it. -/
theorem getRecentContext_spec_witness :
    (getRecentContext 0 "u" 1 none false
        [⟨"u", none, "", "en", "text", 0⟩]).length ≤ 1 :=
  (getRecentContext_spec 0 "u" 1 none
      [⟨"u", none, "", "en", "text", 0⟩] (by decide)).1

/-! ## Voice Recognizer (`src/learning/voice_recognizer.py`)

The `VoiceProfile` table is embedded with the fields used by profile
management and accuracy feedback; the training/feature fields do not
affect any claim and are elided. -/

/-- A `VoiceProfile` row. -/
structure VProfile where
  profileId : String
  userId : String
  profileName : String
  isPrimary : Bool
  recognitionAccuracy : ℚ := 0
  falsePositiveRate : ℚ := 0
deriving DecidableEq

/-- Set the `is_primary` flag (the loop body / assignment used by
`delete_voice_profile` and `set_primary_profile`). -/
def setPrimaryFlag (p : VProfile) : VProfile := { p with isPrimary := true }

/-- Unset the `is_primary` flag of a current primary of `userId` (the
loop body of `set_primary_profile`). -/
def unsetPrimaryFor (userId : String) (p : VProfile) : VProfile :=
  if p.userId == userId && p.isPrimary then { p with isPrimary := false } else p

/-- `VoiceRecognizer.create_voice_profile`: the new profile is primary
iff the user had no profiles. -/
def createVoiceProfile (profileId userId profileName : String)
    (store : List VProfile) : List VProfile :=
  store ++ [{ profileId := profileId, userId := userId,
              profileName := profileName,
              isPrimary :=
                (store.filter (fun p => p.userId == userId)).length == 0 }]

/-- `VoiceRecognizer.delete_voice_profile`: if the deleted profile is
primary, the first other profile of the user (if any) is promoted. -/
def deleteVoiceProfile (profileId userId : String) (store : List VProfile) :
    List VProfile × Bool :=
  match store.find? (fun p => p.profileId == profileId && p.userId == userId) with
  | none => (store, false)
  | some prof =>
    let store1 := if prof.isPrimary then
        mapFirst (fun p => p.userId == userId && p.profileId != profileId)
          setPrimaryFlag store
      else store
    (removeFirst (fun p => p.profileId == profileId && p.userId == userId)
      store1, true)

/-- `VoiceRecognizer.set_primary_profile`: unset every current primary
of the user, then set the requested profile primary; fails (after the
unsetting) when the profile does not exist for the user. -/
def setPrimaryProfile (profileId userId : String) (store : List VProfile) :
    List VProfile × Bool :=
  let store1 := store.map (unsetPrimaryFor userId)
  if (store1.find? (fun p => p.profileId == profileId && p.userId == userId)).isSome
  then
    (mapFirst (fun p => p.profileId == profileId && p.userId == userId)
      setPrimaryFlag store1, true)
  else (store1, false)

/-- The accuracy transform of `update_recognition_accuracy`:
`current_accuracy = profile.recognition_accuracy or 0.5` (Python `or`
treats a stored `0.0` like `None`), then an exponential moving average
step with `alpha = 0.1`. -/
def accuracyStep (wasCorrect : Bool) (a : ℚ) : ℚ :=
  let current := if a = 0 then 1/2 else a
  if wasCorrect then current + (1/10) * (1 - current)
  else current - (1/10) * current

/-- The false-positive-rate transform applied on incorrect feedback. -/
def fprStep (f : ℚ) : ℚ := f + (1/10) * (1 - f)

/-- `VoiceRecognizer.update_recognition_accuracy` on the profile
store. -/
def updateRecognitionAccuracy (profileId : String) (wasCorrect : Bool)
    (store : List VProfile) : List VProfile × Bool :=
  if (store.find? (fun p => p.profileId == profileId)).isSome then
    (mapFirst (fun p => p.profileId == profileId)
      (fun p =>
        { p with recognitionAccuracy := accuracyStep wasCorrect p.recognitionAccuracy,
                 falsePositiveRate :=
                   if wasCorrect then p.falsePositiveRate
                   else fprStep p.falsePositiveRate }) store, true)
  else (store, false)

/-- C8 as stated: for accuracies in `[0, 1]`, a correct-feedback call
replaces `a` by `a + 0.1 * (1 - a)`. -/
def accuracyEmaClaim : Prop :=
  ∀ a : ℚ, 0 ≤ a → a ≤ 1 → accuracyStep true a = a + (1/10) * (1 - a)

/-- C8 counterexample: at `a = 0` (the column default) the Python `or`
replaces the stored accuracy by `0.5`, so the update yields `0.55`,
not `0.1`. -/
theorem accuracyEmaClaim_false : ¬ accuracyEmaClaim := by
  intro h
  have h0 := h 0 le_rfl (by norm_num)
  rw [show accuracyStep true 0 = 11/20 from by norm_num [accuracyStep]] at h0
  norm_num at h0

theorem accuracyStep_true_bounds (a : ℚ) (h0 : 0 ≤ a) (h1 : a ≤ 1) :
    a ≤ accuracyStep true a ∧ 0 ≤ accuracyStep true a ∧
      accuracyStep true a ≤ 1 := by
  by_cases hz : a = 0
  · subst hz
    norm_num [accuracyStep]
  · have : accuracyStep true a = a + (1/10) * (1 - a) := by
      simp only [accuracyStep, hz, if_false, if_true]
    rw [this]
    refine ⟨by nlinarith, by nlinarith, by nlinarith⟩

/-- C8 (amended): for a stored accuracy `a ∈ [0, 1]`, a correct-feedback
call replaces a nonzero `a` by `a + 0.1 * (1 - a)` (a stored `0` is
first replaced by `0.5` because `or 0.5` treats it as falsy), and
repeated calls produce a monotonically non-decreasing accuracy sequence
that never exceeds `1`. -/
theorem accuracyStep_ema_monotone (a : ℚ) (h0 : 0 ≤ a) (h1 : a ≤ 1) :
    (a ≠ 0 → accuracyStep true a = a + (1/10) * (1 - a)) ∧
      ∀ n : ℕ, (accuracyStep true)^[n] a ≤ (accuracyStep true)^[n + 1] a ∧
        (accuracyStep true)^[n] a ≤ 1 := by
  constructor
  · intro hz
    simp only [accuracyStep, hz, if_false, if_true]
  · have key : ∀ n : ℕ, 0 ≤ (accuracyStep true)^[n] a ∧
        (accuracyStep true)^[n] a ≤ 1 := by
      intro n
      induction n with
      | zero => exact ⟨h0, h1⟩
      | succ k ih =>
        rw [Function.iterate_succ_apply']
        exact ⟨(accuracyStep_true_bounds _ ih.1 ih.2).2.1,
          (accuracyStep_true_bounds _ ih.1 ih.2).2.2⟩
    intro n
    refine ⟨?_, (key n).2⟩
    rw [Function.iterate_succ_apply']
    exact (accuracyStep_true_bounds _ (key n).1 (key n).2).1

/-- Witness for the amended C8 at `a = 1/2`, `n = 1`. -/
theorem accuracyStep_ema_monotone_witness :
    accuracyStep true (1/2) = 1/2 + (1/10) * (1 - 1/2) :=
  (accuracyStep_ema_monotone (1/2) (by norm_num) (by norm_num)).1 (by norm_num)

/-! ### Counting lemmas for `mapFirst` / `removeFirst` -/

theorem mapFirst_eq_of_find?_none {α : Type} (p : α → Bool) (f : α → α) :
    ∀ l : List α, l.find? p = none → mapFirst p f l = l := by
  intro l
  induction l with
  | nil => intro _; rfl
  | cons y ys ih =>
    intro hfind
    rw [List.find?_eq_none] at hfind
    have hy : p y = false := by
      have := hfind y (List.mem_cons_self y ys)
      simpa using this
    rw [mapFirst]
    rw [if_neg (by simp [hy])]
    rw [ih (List.find?_eq_none.mpr fun x hx => hfind x (List.mem_cons_of_mem y hx))]

theorem removeFirst_eq_of_find?_none {α : Type} (p : α → Bool) :
    ∀ l : List α, l.find? p = none → removeFirst p l = l := by
  intro l
  induction l with
  | nil => intro _; rfl
  | cons y ys ih =>
    intro hfind
    rw [List.find?_eq_none] at hfind
    have hy : p y = false := by
      have := hfind y (List.mem_cons_self y ys)
      simpa using this
    rw [removeFirst]
    rw [if_neg (by simp [hy])]
    rw [ih (List.find?_eq_none.mpr fun x hx => hfind x (List.mem_cons_of_mem y hx))]

theorem countP_mapFirst {α : Type} (p : α → Bool) (f : α → α) (q : α → Bool) :
    ∀ (l : List α) (x : α), l.find? p = some x →
      (mapFirst p f l).countP q + (if q x then 1 else 0) =
        l.countP q + (if q (f x) then 1 else 0) := by
  intro l
  induction l with
  | nil => intro x hx; simp at hx
  | cons y ys ih =>
    intro x hx
    by_cases hy : p y
    · rw [List.find?_cons_of_pos _ hy] at hx
      cases hx
      rw [mapFirst, if_pos hy, List.countP_cons, List.countP_cons]
      omega
    · rw [List.find?_cons_of_neg _ (by simpa using hy)] at hx
      rw [mapFirst, if_neg hy, List.countP_cons, List.countP_cons]
      have := ih x hx
      omega

theorem countP_removeFirst {α : Type} (p : α → Bool) (q : α → Bool) :
    ∀ (l : List α) (x : α), l.find? p = some x →
      (removeFirst p l).countP q + (if q x then 1 else 0) = l.countP q := by
  intro l
  induction l with
  | nil => intro x hx; simp at hx
  | cons y ys ih =>
    intro x hx
    by_cases hy : p y
    · rw [List.find?_cons_of_pos _ hy] at hx
      cases hx
      rw [removeFirst, if_pos hy, List.countP_cons]
    · rw [List.find?_cons_of_neg _ (by simpa using hy)] at hx
      rw [removeFirst, if_neg hy, List.countP_cons, List.countP_cons]
      have := ih x hx
      omega

theorem removeFirst_sublist {α : Type} (p : α → Bool) :
    ∀ l : List α, (removeFirst p l).Sublist l := by
  intro l
  induction l with
  | nil => exact List.Sublist.refl _
  | cons y ys ih =>
    by_cases hy : p y
    · rw [removeFirst, if_pos hy]
      exact List.sublist_cons_self y ys
    · rw [removeFirst, if_neg hy]
      exact ih.cons₂ y

theorem map_mapFirst_of_preserve {α β : Type} (p : α → Bool) (f : α → α)
    (g : α → β) (hpres : ∀ x, g (f x) = g x) :
    ∀ l : List α, (mapFirst p f l).map g = l.map g := by
  intro l
  induction l with
  | nil => rfl
  | cons y ys ih =>
    by_cases hy : p y
    · rw [mapFirst, if_pos hy]
      simp [hpres]
    · rw [mapFirst, if_neg hy]
      simp [ih]

theorem find?_mapFirst_of_disjoint {α : Type} (p : α → Bool) (f : α → α)
    (key : α → Bool)
    (hdisj : ∀ x, p x = true → key x = false ∧ key (f x) = false) :
    ∀ l : List α, (mapFirst p f l).find? key = l.find? key := by
  intro l
  induction l with
  | nil => rfl
  | cons y ys ih =>
    by_cases hy : p y
    · rw [mapFirst, if_pos hy]
      rw [List.find?_cons_of_neg _ (by simp [(hdisj y hy).2]),
        List.find?_cons_of_neg _ (by simp [(hdisj y hy).1])]
    · rw [mapFirst, if_neg hy]
      by_cases hk : key y
      · rw [List.find?_cons_of_pos _ hk, List.find?_cons_of_pos _ hk]
      · rw [List.find?_cons_of_neg _ (by simpa using hk),
          List.find?_cons_of_neg _ (by simpa using hk), ih]

theorem two_le_countP_of_two_mem {α : Type} {l : List α} {a b : α}
    (q : α → Bool) (ha : a ∈ l) (hb : b ∈ l) (hab : a ≠ b)
    (hqa : q a) (hqb : q b) : 2 ≤ l.countP q := by
  induction l with
  | nil => simp at ha
  | cons y ys ih =>
    rcases List.mem_cons.mp ha with rfl | ha' <;>
      rcases List.mem_cons.mp hb with rfl | hb'
    · exact absurd rfl hab
    · rw [List.countP_cons, if_pos hqa]
      have h1 : 1 ≤ ys.countP q := List.countP_pos_iff.mpr ⟨b, hb', hqb⟩
      omega
    · rw [List.countP_cons, if_pos hqb]
      have h1 : 1 ≤ ys.countP q := List.countP_pos_iff.mpr ⟨a, ha', hqa⟩
      omega
    · have := ih ha' hb'
      rw [List.countP_cons]
      omega

/-! ### The one-primary-per-user invariant -/

/-- Number of primary profiles a user has in the store. -/
def primaryCount (userId : String) (store : List VProfile) : ℕ :=
  store.countP (fun p => p.userId == userId && p.isPrimary)

/-- Every user with at least one profile has exactly one primary
profile. -/
def uniquePrimaryInv (store : List VProfile) : Prop :=
  ∀ uid ∈ store.map VProfile.userId, primaryCount uid store = 1

/-- Stores reachable by any sequence of profile operations, with
arbitrary (also dangling) arguments to `set_primary_profile`.  Created
profile ids are fresh, reflecting `uuid4`. -/
inductive ReachAny : List VProfile → Prop where
  | nil : ReachAny []
  | create (s : List VProfile) (pid uid nm : String) (h : ReachAny s)
      (hfresh : ∀ p ∈ s, p.profileId ≠ pid) :
      ReachAny (createVoiceProfile pid uid nm s)
  | del (s : List VProfile) (pid uid : String) (h : ReachAny s) :
      ReachAny (deleteVoiceProfile pid uid s).1
  | setp (s : List VProfile) (pid uid : String) (h : ReachAny s) :
      ReachAny (setPrimaryProfile pid uid s).1

/-- Stores reachable when, additionally, every `set_primary_profile`
call names a profile that exists and belongs to the given user. -/
inductive ReachOk : List VProfile → Prop where
  | nil : ReachOk []
  | create (s : List VProfile) (pid uid nm : String) (h : ReachOk s)
      (hfresh : ∀ p ∈ s, p.profileId ≠ pid) :
      ReachOk (createVoiceProfile pid uid nm s)
  | del (s : List VProfile) (pid uid : String) (h : ReachOk s) :
      ReachOk (deleteVoiceProfile pid uid s).1
  | setp (s : List VProfile) (pid uid : String) (h : ReachOk s)
      (hvalid : ∃ p ∈ s, p.profileId = pid ∧ p.userId = uid) :
      ReachOk (setPrimaryProfile pid uid s).1

/-- C2 as stated: the invariant holds under every operation
sequence. -/
def voiceProfileInvariantClaim : Prop :=
  ∀ s : List VProfile, ReachAny s → uniquePrimaryInv s

/-- C2 counterexample: create one profile for user `u` (it becomes
primary), then call `set_primary_profile` with a profile id that does
not exist.  The call unsets the current primary before validating the
target, returns failure, and leaves user `u` with one profile and zero
primaries. -/
theorem voiceProfileInvariantClaim_false : ¬ voiceProfileInvariantClaim := by
  intro h
  have hreach : ReachAny
      (setPrimaryProfile "p2" "u" (createVoiceProfile "p1" "u" "n" [])).1 :=
    ReachAny.setp _ "p2" "u"
      (ReachAny.create [] "p1" "u" "n" ReachAny.nil (by simp))
  have hinv := h _ hreach
  have hu : "u" ∈ ((setPrimaryProfile "p2" "u"
      (createVoiceProfile "p1" "u" "n" [])).1.map VProfile.userId) := by decide
  have := hinv "u" hu
  rw [show primaryCount "u" (setPrimaryProfile "p2" "u"
      (createVoiceProfile "p1" "u" "n" [])).1 = 0 from by decide] at this
  exact absurd this (by decide)

theorem wf_createVoiceProfile (pid uid nm : String) (s : List VProfile)
    (hfresh : ∀ p ∈ s, p.profileId ≠ pid)
    (hnd : (s.map VProfile.profileId).Nodup) (hinv : uniquePrimaryInv s) :
    ((createVoiceProfile pid uid nm s).map VProfile.profileId).Nodup ∧
      uniquePrimaryInv (createVoiceProfile pid uid nm s) := by
  constructor
  · rw [createVoiceProfile, List.map_append, List.nodup_append]
    refine ⟨hnd, List.nodup_singleton _, ?_⟩
    intro a ha hb
    simp only [List.map_cons, List.map_nil, List.mem_singleton] at hb
    rcases List.mem_map.mp ha with ⟨p, hp, rfl⟩
    exact hfresh p hp hb
  · intro uid' huid'
    rw [createVoiceProfile] at huid' ⊢
    rw [primaryCount, List.countP_append, List.countP_cons, List.countP_nil]
    by_cases he : uid' = uid
    · subst he
      by_cases hemp : (s.filter (fun p => p.userId == uid')).length = 0
      · have hzero : primaryCount uid' s = 0 := by
          have hle : s.countP (fun p => p.userId == uid' && p.isPrimary) ≤
              s.countP (fun p => p.userId == uid') := by
            apply List.countP_mono_left
            intro p _ hp
            exact (Bool.and_elim_left hp)
          have h2 : s.countP (fun p => p.userId == uid') =
              (s.filter (fun p => p.userId == uid')).length :=
            List.countP_eq_length_filter _ _
          rw [primaryCount]
          omega
        rw [primaryCount] at hzero
        simp [hzero, hemp]
      · have hex : ∃ p ∈ s, p.userId = uid' := by
          have hne : s.filter (fun p => p.userId == uid') ≠ [] := by
            intro hc
            rw [hc] at hemp
            simp at hemp
          rcases List.exists_mem_of_ne_nil _ hne with ⟨p, hp⟩
          have := List.mem_filter.mp hp
          exact ⟨p, this.1, by simpa using this.2⟩
        rcases hex with ⟨p0, hp0, hp0uid⟩
        have hone := hinv uid' (List.mem_map.mpr ⟨p0, hp0, hp0uid⟩)
        rw [primaryCount] at hone
        simp [hone, hemp]
    · have hmem : uid' ∈ s.map VProfile.userId := by
        rw [List.map_append] at huid'
        rcases List.mem_append.mp huid' with h | h
        · exact h
        · simp at h
          exact absurd h he
      have hone := hinv uid' hmem
      rw [primaryCount] at hone
      have : (uid == uid') = false := by
        simp
        exact fun hc => he hc.symm
      simp [hone, this]

theorem setPrimaryFlag_profileId (p : VProfile) :
    (setPrimaryFlag p).profileId = p.profileId := rfl

theorem setPrimaryFlag_userId (p : VProfile) :
    (setPrimaryFlag p).userId = p.userId := rfl

theorem unsetPrimaryFor_profileId (uid : String) (p : VProfile) :
    (unsetPrimaryFor uid p).profileId = p.profileId := by
  rw [unsetPrimaryFor]
  by_cases hc : (p.userId == uid && p.isPrimary) = true
  · rw [if_pos hc]
  · rw [if_neg hc]

theorem unsetPrimaryFor_userId (uid : String) (p : VProfile) :
    (unsetPrimaryFor uid p).userId = p.userId := by
  rw [unsetPrimaryFor]
  by_cases hc : (p.userId == uid && p.isPrimary) = true
  · rw [if_pos hc]
  · rw [if_neg hc]

theorem unsetPrimaryFor_not_primary (uid : String) (p : VProfile)
    (h : p.userId = uid) : (unsetPrimaryFor uid p).isPrimary = false := by
  rw [unsetPrimaryFor]
  by_cases hp : p.isPrimary = true
  · rw [if_pos (by simp [h, hp])]
  · rw [if_neg (by simp [hp])]
    simpa using hp

theorem wf_setPrimaryProfile (pid uid : String) (s : List VProfile)
    (hvalid : ∃ p ∈ s, p.profileId = pid ∧ p.userId = uid)
    (hnd : (s.map VProfile.profileId).Nodup) (hinv : uniquePrimaryInv s) :
    (((setPrimaryProfile pid uid s).1).map VProfile.profileId).Nodup ∧
      uniquePrimaryInv (setPrimaryProfile pid uid s).1 := by
  have hmapId : (s.map (unsetPrimaryFor uid)).map VProfile.profileId =
      s.map VProfile.profileId := by
    rw [List.map_map]
    exact List.map_congr_left fun p _ => unsetPrimaryFor_profileId uid p
  have hmapUid : (s.map (unsetPrimaryFor uid)).map VProfile.userId =
      s.map VProfile.userId := by
    rw [List.map_map]
    exact List.map_congr_left fun p _ => unsetPrimaryFor_userId uid p
  have hzero : primaryCount uid (s.map (unsetPrimaryFor uid)) = 0 := by
    rw [primaryCount, List.countP_eq_zero]
    intro y hy
    rcases List.mem_map.mp hy with ⟨x, _, rfl⟩
    by_cases hu : x.userId = uid
    · simp [unsetPrimaryFor_userId, unsetPrimaryFor_not_primary uid x hu]
    · simp [unsetPrimaryFor_userId, hu]
  have hother : ∀ uid' : String, uid' ≠ uid →
      primaryCount uid' (s.map (unsetPrimaryFor uid)) = primaryCount uid' s := by
    intro uid' hne
    rw [primaryCount, primaryCount, List.countP_map]
    apply List.countP_congr
    intro x _
    simp only [Function.comp_apply]
    by_cases hu : x.userId = uid
    · have h1 : (x.userId == uid') = false := by
        simp [hu]
        exact fun hc => hne hc.symm
      have h2 : ((unsetPrimaryFor uid x).userId == uid') = false := by
        rw [unsetPrimaryFor_userId]
        exact h1
      simp [h1, h2]
    · have hfix : unsetPrimaryFor uid x = x := by
        rw [unsetPrimaryFor, if_neg (by simp [hu])]
      rw [hfix]
  have hfind : ((s.map (unsetPrimaryFor uid)).find?
      (fun p => p.profileId == pid && p.userId == uid)).isSome := by
    rw [List.find?_isSome]
    rcases hvalid with ⟨p0, hp0, hp0pid, hp0uid⟩
    refine ⟨unsetPrimaryFor uid p0, List.mem_map_of_mem _ hp0, ?_⟩
    simp [unsetPrimaryFor_profileId, unsetPrimaryFor_userId, hp0pid, hp0uid]
  obtain ⟨x, hx⟩ := Option.isSome_iff_exists.mp hfind
  have hxmem := List.mem_of_find?_eq_some hx
  have hxkey := List.find?_some hx
  have hxuid : x.userId = uid := by
    have := Bool.and_elim_right hxkey
    simpa using this
  have hxnp : x.isPrimary = false := by
    rcases List.mem_map.mp hxmem with ⟨x0, _, rfl⟩
    apply unsetPrimaryFor_not_primary
    rw [← unsetPrimaryFor_userId uid x0]
    exact hxuid
  constructor
  · rw [setPrimaryProfile]
    simp only [hfind, if_true]
    rw [map_mapFirst_of_preserve _ _ _ setPrimaryFlag_profileId, hmapId]
    exact hnd
  · intro uid' huid'
    rw [setPrimaryProfile] at huid' ⊢
    simp only [hfind, if_true] at huid' ⊢
    have hcount := countP_mapFirst
      (fun p => p.profileId == pid && p.userId == uid) setPrimaryFlag
      (fun p => p.userId == uid' && p.isPrimary) _ x hx
    by_cases he : uid' = uid
    · subst he
      have hq1 : ((fun p => p.userId == uid' && p.isPrimary) x) = false := by
        simp [hxnp]
      have hq2 : ((fun p => p.userId == uid' && p.isPrimary)
          (setPrimaryFlag x)) = true := by
        simp [setPrimaryFlag, hxuid]
      rw [hq1, hq2] at hcount
      rw [if_neg (by simp), if_pos rfl] at hcount
      rw [primaryCount] at hzero ⊢
      omega
    · have hne1 : (x.userId == uid') = false := by
        simp [hxuid]
        exact fun hc => he hc.symm
      have hq1 : ((fun p => p.userId == uid' && p.isPrimary) x) = false := by
        simp [hne1]
      have hq2 : ((fun p => p.userId == uid' && p.isPrimary)
          (setPrimaryFlag x)) = false := by
        simp only [setPrimaryFlag]
        simp [hne1]
      rw [hq1, hq2] at hcount
      rw [if_neg (by simp)] at hcount
      have hmem' : uid' ∈ s.map VProfile.userId := by
        rw [map_mapFirst_of_preserve _ _ _ setPrimaryFlag_userId, hmapUid]
          at huid'
        exact huid'
      have hbase := hinv uid' hmem'
      rw [primaryCount] at hbase ⊢
      have hoth := hother uid' he
      rw [primaryCount, primaryCount] at hoth
      omega

theorem wf_deleteVoiceProfile (pid uid : String) (s : List VProfile)
    (hnd : (s.map VProfile.profileId).Nodup) (hinv : uniquePrimaryInv s) :
    (((deleteVoiceProfile pid uid s).1).map VProfile.profileId).Nodup ∧
      uniquePrimaryInv (deleteVoiceProfile pid uid s).1 := by
  cases hfind : s.find? (fun p => p.profileId == pid && p.userId == uid) with
  | none =>
    simp only [deleteVoiceProfile, hfind]
    exact ⟨hnd, hinv⟩
  | some prof =>
    have hprofmem := List.mem_of_find?_eq_some hfind
    have hprofkey := List.find?_some hfind
    have hprofpid : prof.profileId = pid := by
      have := Bool.and_elim_left hprofkey
      simpa using this
    have hprofuid : prof.userId = uid := by
      have := Bool.and_elim_right hprofkey
      simpa using this
    have hmemuid : uid ∈ s.map VProfile.userId :=
      List.mem_map.mpr ⟨prof, hprofmem, hprofuid⟩
    simp only [deleteVoiceProfile, hfind]
    by_cases hprim : prof.isPrimary = true
    · rw [if_pos hprim]
      have hdisj : ∀ x : VProfile,
          (x.userId == uid && x.profileId != pid) = true →
            ((fun p => p.profileId == pid && p.userId == uid) x) = false ∧
            ((fun p => p.profileId == pid && p.userId == uid)
              (setPrimaryFlag x)) = false := by
        intro x hx
        have hne : (x.profileId == pid) = false := by
          have hb := Bool.and_elim_right hx
          rw [bne_iff_ne] at hb
          simpa using hb
        constructor
        · simp [hne]
        · simp [setPrimaryFlag, hne]
      have g3 : (mapFirst (fun p => p.userId == uid && p.profileId != pid)
          setPrimaryFlag s).find?
          (fun p => p.profileId == pid && p.userId == uid) = some prof := by
        rw [find?_mapFirst_of_disjoint _ _ _ hdisj]
        exact hfind
      have hmapIdS1 : (mapFirst (fun p => p.userId == uid && p.profileId != pid)
          setPrimaryFlag s).map VProfile.profileId = s.map VProfile.profileId :=
        map_mapFirst_of_preserve _ _ _ setPrimaryFlag_profileId s
      have hmapUidS1 : (mapFirst (fun p => p.userId == uid && p.profileId != pid)
          setPrimaryFlag s).map VProfile.userId = s.map VProfile.userId :=
        map_mapFirst_of_preserve _ _ _ setPrimaryFlag_userId s
      have hsubmap : (removeFirst (fun p => p.profileId == pid && p.userId == uid)
          (mapFirst (fun p => p.userId == uid && p.profileId != pid)
            setPrimaryFlag s)).map VProfile.userId ⊆ s.map VProfile.userId := by
        intro a ha
        rw [← hmapUidS1]
        exact (List.Sublist.map VProfile.userId (removeFirst_sublist _ _)).subset ha
      constructor
      · refine List.Nodup.sublist ?_ (hmapIdS1 ▸ hnd)
        exact List.Sublist.map VProfile.profileId (removeFirst_sublist _ _)
      · intro uid' huid'
        rw [primaryCount]
        have hcount1 := countP_removeFirst
          (fun p => p.profileId == pid && p.userId == uid)
          (fun p => p.userId == uid' && p.isPrimary) _ prof g3
        by_cases he : uid' = uid
        · subst he
          cases hfp : s.find? (fun p => p.userId == uid' && p.profileId != pid) with
          | none =>
            have hs1 : mapFirst (fun p => p.userId == uid' && p.profileId != pid)
                setPrimaryFlag s = s := mapFirst_eq_of_find?_none _ _ s hfp
            rw [hs1] at huid' hcount1 ⊢
            rcases List.mem_map.mp huid' with ⟨q, hq, hquid⟩
            have hqs : q ∈ s := (removeFirst_sublist _ _).subset hq
            have hqpid : q.profileId = pid := by
              by_contra hne
              have hpkey : (q.userId == uid' && q.profileId != pid) = true := by
                simp [hquid, bne_iff_ne, hne]
              rw [List.find?_eq_none] at hfp
              exact absurd hpkey (by simpa using hfp q hqs)
            have hqkey : ((fun p => p.profileId == pid && p.userId == uid') q)
                = true := by
              simp [hqpid, hquid]
            have hpos : 1 ≤ (removeFirst
                (fun p => p.profileId == pid && p.userId == uid') s).countP
                (fun p => p.profileId == pid && p.userId == uid') :=
              List.countP_pos_iff.mpr ⟨q, hq, hqkey⟩
            have hcountk := countP_removeFirst
              (fun p => p.profileId == pid && p.userId == uid')
              (fun p => p.profileId == pid && p.userId == uid') _ prof hfind
            have hkeyprof : ((fun p => p.profileId == pid && p.userId == uid') prof)
                = true := by
              simp [hprofpid, hprofuid]
            rw [hkeyprof, if_pos rfl] at hcountk
            have hmono : s.countP (fun p => p.profileId == pid && p.userId == uid')
                ≤ s.countP (fun p => p.profileId == pid) :=
              List.countP_mono_left fun p _ hp => Bool.and_elim_left hp
            have hcnt : s.countP (fun p => p.profileId == pid) =
                (s.map VProfile.profileId).count pid := by
              rw [List.count, List.countP_map]
              rfl
            have hle1 : (s.map VProfile.profileId).count pid ≤ 1 :=
              List.nodup_iff_count_le_one.mp hnd pid
            omega
          | some other =>
            have hpo := List.find?_some hfp
            have hothermem := List.mem_of_find?_eq_some hfp
            have hotheruid : other.userId = uid' := by
              have := Bool.and_elim_left hpo
              simpa using this
            have hotherpid : other.profileId ≠ pid := by
              have := Bool.and_elim_right hpo
              rwa [bne_iff_ne] at this
            have hbase := hinv uid' hmemuid
            rw [primaryCount] at hbase
            have hnprim : other.isPrimary = false := by
              by_contra hp
              have hp' : other.isPrimary = true := by simpa using hp
              have hneq : prof ≠ other := by
                intro hc
                rw [hc] at hprofpid
                exact hotherpid hprofpid
              have h2 := two_le_countP_of_two_mem
                (fun p => p.userId == uid' && p.isPrimary) hprofmem hothermem
                hneq (by simp [hprofuid, hprim]) (by simp [hotheruid, hp'])
              omega
            have hcount2 := countP_mapFirst
              (fun p => p.userId == uid' && p.profileId != pid) setPrimaryFlag
              (fun p => p.userId == uid' && p.isPrimary) _ other hfp
            have hq1 : ((fun p => p.userId == uid' && p.isPrimary) other)
                = false := by simp [hnprim]
            have hq2 : ((fun p => p.userId == uid' && p.isPrimary)
                (setPrimaryFlag other)) = true := by
              simp [setPrimaryFlag, hotheruid]
            rw [hq1, hq2, if_neg (by simp), if_pos rfl] at hcount2
            have hqprof : ((fun p => p.userId == uid' && p.isPrimary) prof)
                = true := by simp [hprofuid, hprim]
            rw [hqprof, if_pos rfl] at hcount1
            omega
        · have hqprof : ((fun p => p.userId == uid' && p.isPrimary) prof)
              = false := by
            have : (prof.userId == uid') = false := by
              simp [hprofuid]
              exact fun hc => he hc.symm
            simp [this]
          rw [hqprof, if_neg (by simp)] at hcount1
          have hmem' : uid' ∈ s.map VProfile.userId := hsubmap huid'
          have hbase := hinv uid' hmem'
          rw [primaryCount] at hbase
          cases hfp : s.find? (fun p => p.userId == uid && p.profileId != pid) with
          | none =>
            have hs1 : mapFirst (fun p => p.userId == uid && p.profileId != pid)
                setPrimaryFlag s = s := mapFirst_eq_of_find?_none _ _ s hfp
            rw [hs1] at hcount1 ⊢
            omega
          | some other =>
            have hpo := List.find?_some hfp
            have hotheruid : other.userId = uid := by
              have := Bool.and_elim_left hpo
              simpa using this
            have hcount2 := countP_mapFirst
              (fun p => p.userId == uid && p.profileId != pid) setPrimaryFlag
              (fun p => p.userId == uid' && p.isPrimary) _ other hfp
            have hne1 : (other.userId == uid') = false := by
              simp [hotheruid]
              exact fun hc => he hc.symm
            have hq1 : ((fun p => p.userId == uid' && p.isPrimary) other)
                = false := by simp [hne1]
            have hq2 : ((fun p => p.userId == uid' && p.isPrimary)
                (setPrimaryFlag other)) = false := by
              simp only [setPrimaryFlag]
              simp [hne1]
            rw [hq1, hq2, if_neg (by simp)] at hcount2
            omega
    · rw [if_neg hprim]
      constructor
      · refine List.Nodup.sublist ?_ hnd
        exact List.Sublist.map VProfile.profileId (removeFirst_sublist _ _)
      · intro uid' huid'
        rw [primaryCount]
        have hcount1 := countP_removeFirst
          (fun p => p.profileId == pid && p.userId == uid)
          (fun p => p.userId == uid' && p.isPrimary) _ prof hfind
        have hqprof : ((fun p => p.userId == uid' && p.isPrimary) prof)
            = false := by
          by_cases he : uid' = uid
          · subst he
            have : prof.isPrimary = false := by simpa using hprim
            simp [this]
          · have : (prof.userId == uid') = false := by
              simp [hprofuid]
              exact fun hc => he hc.symm
            simp [this]
        rw [hqprof, if_neg (by simp)] at hcount1
        have hmem' : uid' ∈ s.map VProfile.userId := by
          rcases List.mem_map.mp huid' with ⟨q, hq, hquid⟩
          exact List.mem_map.mpr ⟨q, (removeFirst_sublist _ _).subset hq, hquid⟩
        have hbase := hinv uid' hmem'
        rw [primaryCount] at hbase
        omega

/-- C2 (amended): under every sequence of `create_voice_profile`,
`delete_voice_profile` and `set_primary_profile` operations in which
every `set_primary_profile` call names a profile that exists and
belongs to the given user (and created profile ids are fresh, as
`uuid4` guarantees), every user with at least one profile has exactly
one profile with `is_primary = true`: the first profile created for a
user is primary and later ones are not, deleting the primary promotes
another profile when one exists, and a valid `set_primary_profile`
leaves exactly one primary.  (A `set_primary_profile` call whose
profile id does not resolve breaks the invariant, see the
counterexample.) -/
theorem voiceProfile_unique_primary (s : List VProfile) (h : ReachOk s) :
    uniquePrimaryInv s := by
  have main : ∀ t : List VProfile, ReachOk t →
      (t.map VProfile.profileId).Nodup ∧ uniquePrimaryInv t := by
    intro t ht
    induction ht with
    | nil =>
      refine ⟨List.nodup_nil, ?_⟩
      intro uid hmem
      simp at hmem
    | create s pid uid nm hr hfresh ih =>
      exact wf_createVoiceProfile pid uid nm s hfresh ih.1 ih.2
    | del s pid uid hr ih =>
      exact wf_deleteVoiceProfile pid uid s ih.1 ih.2
    | setp s pid uid hr hvalid ih =>
      exact wf_setPrimaryProfile pid uid s hvalid ih.1 ih.2
  exact (main s h).2

/-- Witness for the amended C2: create two profiles for user `u`, then
set the second one primary; the invariant holds in the resulting
store. -/
theorem voiceProfile_unique_primary_witness :
    uniquePrimaryInv (setPrimaryProfile "p2" "u"
      (createVoiceProfile "p2" "u" "m" (createVoiceProfile "p1" "u" "n" []))).1 :=
  voiceProfile_unique_primary _
    (ReachOk.setp _ "p2" "u"
      (ReachOk.create _ "p2" "u" "m"
        (ReachOk.create [] "p1" "u" "n" ReachOk.nil (by simp)) (by decide))
      (by decide))

/-! ## Habit Learner (`src/learning/habit_learner.py`)

`learn_habits` pulls `detect_new_patterns` and, for each pattern at or
above `habit_threshold = 0.7`, either updates the habit row found by
`(user_id, habit_type, keyword)` — but only when the pattern carries a
truthy `keyword` — or inserts a new row.  The embedding threads the
`UserHabit` table explicitly and takes the detected pattern list as an
argument (the recognizer is verified separately above). -/

/-- A `UserHabit` row. -/
structure UserHabit where
  userId : String
  habitType : String
  patternData : Pattern
  frequency : ℕ
  confidence : ℚ
  timeOfDay : Option String
  dayOfWeek : Option String
  lastOccurrence : ℤ
deriving DecidableEq

/-- Python truthiness of `pattern.get('keyword')`. -/
def keywordTruthy (p : Pattern) : Bool :=
  match p.keyword with
  | none => false
  | some k => k != ""

/-- The lookup key of `learn_habits`: same user, habit type equal to
the pattern type, and `pattern_data['keyword']` equal to the pattern's
keyword. -/
def habitKey (userId : String) (p : Pattern) (h : UserHabit) : Bool :=
  h.userId == userId && h.habitType == p.ptype &&
    (h.patternData.keyword.getD "") == (p.keyword.getD "")

/-- The in-place update applied to an existing habit. -/
def updateHabit (now : ℤ) (p : Pattern) (h : UserHabit) : UserHabit :=
  { h with frequency := h.frequency + 1, confidence := p.confidence,
           lastOccurrence := now, patternData := p }

/-- The row inserted for a pattern with no existing habit. -/
def newHabitOf (now : ℤ) (userId : String) (p : Pattern) : UserHabit :=
  { userId := userId, habitType := p.ptype, patternData := p,
    frequency := p.frequency, confidence := p.confidence,
    timeOfDay := p.timeOfDay, dayOfWeek := p.dayOfWeek, lastOccurrence := now }

/-- `HabitLearner.learn_habits` over an already-detected pattern list:
returns the updated habit table and the list of patterns for which a
new habit was created. -/
def learnHabits (now : ℤ) (userId : String) :
    List Pattern → List UserHabit → List UserHabit × List Pattern
  | [], habits => (habits, [])
  | p :: ps, habits =>
    if (7 : ℚ) / 10 ≤ p.confidence then
      if keywordTruthy p && (habits.find? (habitKey userId p)).isSome then
        learnHabits now userId ps
          (mapFirst (habitKey userId p) (updateHabit now p) habits)
      else
        let rest := learnHabits now userId ps (habits ++ [newHabitOf now userId p])
        (rest.1, p :: rest.2)
    else learnHabits now userId ps habits

theorem length_mapFirst {α : Type} (p : α → Bool) (f : α → α) :
    ∀ l : List α, (mapFirst p f l).length = l.length := by
  intro l
  induction l with
  | nil => rfl
  | cons y ys ih =>
    by_cases hy : p y
    · rw [mapFirst, if_pos hy]
      rfl
    · rw [mapFirst, if_neg hy]
      simp [ih]

/-- C3 as stated: for every qualifying pattern, `learn_habits` updates
the habit row matching `(user_id, habit_type, discriminator)` when one
exists — so no row is added and nothing is returned for that
pattern. -/
def habitUpdateClaim : Prop :=
  ∀ (now : ℤ) (userId : String) (p : Pattern) (habits : List UserHabit),
    (7 : ℚ) / 10 ≤ p.confidence →
    (∃ h ∈ habits, h.userId = userId ∧ h.habitType = p.ptype ∧
        h.patternData.keyword.getD "" = p.keyword.getD "") →
    (learnHabits now userId [p] habits).2 = [] ∧
      (learnHabits now userId [p] habits).1.length = habits.length

/-- C3 counterexample: a keyword-less pattern (e.g. the
`language_preference` pattern a single English context produces, at
confidence 1) skips the lookup entirely, so a second run duplicates the
habit row instead of updating it. -/
theorem habitUpdateClaim_false : ¬ habitUpdateClaim := by
  intro hclaim
  have h1 := hclaim 0 "u"
    (Pattern.mk "language_preference" 1 1 none none none (some "en"))
    [newHabitOf 0 "u"
      (Pattern.mk "language_preference" 1 1 none none none (some "en"))]
    (by norm_num) (by decide)
  rw [show (learnHabits 0 "u"
      [Pattern.mk "language_preference" 1 1 none none none (some "en")]
      [newHabitOf 0 "u"
        (Pattern.mk "language_preference" 1 1 none none none (some "en"))]).2 =
      [Pattern.mk "language_preference" 1 1 none none none (some "en")]
    from by decide] at h1
  exact absurd h1.1 (by decide)

/-- C3 (amended): for every pattern at or above the habit threshold 0.7
that carries a non-empty keyword, `learn_habits` updates the first
habit matching `(user_id, habit_type, keyword)` in place (frequency
incremented, confidence overwritten with the pattern's, last_occurrence
refreshed) and adds no row and returns nothing for it; for a pattern
without a truthy keyword — or with no matching habit — a new habit row
with the pattern's confidence is always created, even when a matching
habit exists, and the pattern is returned.  The returned list contains
exactly the patterns for which a new habit was created. -/
theorem learnHabits_per_pattern (now : ℤ) (userId : String) (p : Pattern)
    (habits : List UserHabit) (hconf : (7 : ℚ) / 10 ≤ p.confidence) :
    (∀ h : UserHabit, keywordTruthy p = true →
        habits.find? (habitKey userId p) = some h →
        (learnHabits now userId [p] habits).2 = [] ∧
          updateHabit now p h ∈ (learnHabits now userId [p] habits).1 ∧
          (learnHabits now userId [p] habits).1.length = habits.length) ∧
      ((keywordTruthy p = false ∨ habits.find? (habitKey userId p) = none) →
        (learnHabits now userId [p] habits).2 = [p] ∧
          newHabitOf now userId p ∈ (learnHabits now userId [p] habits).1 ∧
          (learnHabits now userId [p] habits).1.length = habits.length + 1) := by
  constructor
  · intro h hkw hfindh
    have hcond : (keywordTruthy p &&
        (habits.find? (habitKey userId p)).isSome) = true := by
      simp [hkw, hfindh]
    rw [learnHabits, if_pos hconf, if_pos hcond, learnHabits]
    refine ⟨rfl, ?_, length_mapFirst _ _ habits⟩
    exact mapFirst_mem_update _ _ habits h hfindh
  · intro hcase
    have hcond : (keywordTruthy p &&
        (habits.find? (habitKey userId p)).isSome) = false := by
      rcases hcase with h | h <;> simp [h]
    rw [learnHabits, if_pos hconf, if_neg (by simp [hcond]), learnHabits]
    refine ⟨rfl, ?_, by simp⟩
    simp

/-- Witness for the amended C3: a recurring-task pattern with keyword
`"report"` updates the existing habit row in place. -/
theorem learnHabits_per_pattern_witness :
    (learnHabits 0 "u"
      [Pattern.mk "recurring_task" 1 3 (some "report") none none none]
      [newHabitOf 0 "u"
        (Pattern.mk "recurring_task" 1 3 (some "report") none none none)]).2 =
      [] :=
  ((learnHabits_per_pattern 0 "u"
      (Pattern.mk "recurring_task" 1 3 (some "report") none none none)
      [newHabitOf 0 "u"
        (Pattern.mk "recurring_task" 1 3 (some "report") none none none)]
      (by norm_num)).1
    (newHabitOf 0 "u"
      (Pattern.mk "recurring_task" 1 3 (some "report") none none none))
    (by decide) (by decide)).1

end VoiceAssistant
